import Mathlib

/-!
# Cross-correlation lag estimator: embedding and verification

Shallow embedding of `cross_correlation.c`, `audio_reader.c` and `main.c`.

* C arrays are lists; a read outside the list yields `0` (`List.getD`).
* In `cross_correlation.c`, `size_t` is `Nat` modulo `2 ^ 64` and `int` is
  `Int` wrapped to 32 bits; the conversions of the source are written out
  (`to_size_t`, `to_int`). In `audio_reader.c` sizes are plain naturals.
* `double` is an ordered ring `K` (the reals when the transforms are exact).
* The FFTW and FFmpeg libraries are external: their results are supplied as
  data (`Fftw`, `Outcomes`, `Media`), one field per call of the source.
* `return_codes.h` is not part of the sources: the codes are a parameter
  (`ReturnCodes`).
-/

namespace CrossCorrelation

/-! ## Return codes and machine integers -/

/-- The constants of `return_codes.h`, which is not among the source files:
they are a parameter of every function that uses them. -/
structure ReturnCodes where
  SUCCESS : Int
  ERROR_CANNOT_OPEN_FILE : Int
  ERROR_NOTENOUGH_MEMORY : Int
  ERROR_DATA_INVALID : Int
  ERROR_ARGUMENTS_INVALID : Int
  ERROR_FORMAT_INVALID : Int
  ERROR_UNSUPPORTED : Int
  ERROR_UNKNOWN : Int
  deriving Repr, DecidableEq

/-- Conversion to `size_t` (64 bits): reduction modulo `2 ^ 64`. -/
def to_size_t (z : Int) : Nat := (z % 2 ^ 64).toNat

/-- Conversion to `int` (32 bits, two's complement wrap-around). -/
def to_int (z : Int) : Int := (z + 2 ^ 31) % 2 ^ 32 - 2 ^ 31

/-! ## cross_correlation.c -/

/-- The two FFTW transforms used by the source: `r2c n x` is what executing a
plan of `fftw_plan_dft_r2c_1d(n, x, result, _)` leaves in `result`
(`n / 2 + 1` bins, each a pair real part, imaginary part), `c2r n y` what
executing a plan of `fftw_plan_dft_c2r_1d(n, y, out, _)` leaves in `out`
(`n` reals). -/
structure Fftw (K : Type) where
  r2c : Nat → List K → List (K × K)
  c2r : Nat → List (K × K) → List K

/-- Success or failure of each fallible library call of `cross_correlation`,
in source order. -/
structure Outcomes where
  /-- `malloc(2 * n * sizeof(double))` returned a block -/
  malloc_input : Bool
  /-- `fftw_malloc(3 * n * sizeof(fftw_complex))` returned a block -/
  fftw_malloc_results : Bool
  /-- `fftw_plan_dft_r2c_1d` returned a plan for the first signal -/
  plan_r2c_1 : Bool
  /-- `fftw_plan_dft_r2c_1d` returned a plan for the second signal -/
  plan_r2c_2 : Bool
  /-- `malloc(sizeof(double) * n)` in `compute_inverse_fft` returned a block -/
  malloc_final : Bool
  /-- `fftw_plan_dft_c2r_1d` returned a plan -/
  plan_c2r : Bool
  deriving Repr, DecidableEq

/-- Every call succeeds. -/
def Outcomes.all_ok : Outcomes := ⟨true, true, true, true, true, true⟩

section Correlator

variable {K : Type} [LinearOrderedRing K]

/-- `initialize_input_data`: copy `size` samples, then zero-fill up to `n`
when `n > size` (`n` is an `int`, compared and subtracted as `size_t`). -/
def initialize_input_data (signal : List K) (size : Nat) (n : Int) : List K :=
  signal.take size ++
    (if to_size_t n > size then List.replicate (to_size_t n - size) 0 else [])

/-- `perform_fft`: the return code and the contents of `result`. -/
def perform_fft (rc : ReturnCodes) (lib : Fftw K) (plan_ok : Bool)
    (input_data : List K) (n : Nat) : Int × List (K × K) :=
  if !plan_ok then (rc.ERROR_UNSUPPORTED, [])
  else (rc.SUCCESS, lib.r2c n input_data)

/-- `calculate_correlation`: bin by bin over `i < n / 2 + 1`. -/
def calculate_correlation (result1 result2 : List (K × K)) (n : Nat) : List (K × K) :=
  (List.range (n / 2 + 1)).map fun i =>
    let a := result1.getD i (0, 0)
    let b := result2.getD i (0, 0)
    let real_part := a.1 * b.1 + a.2 * b.2
    let imag_part := (-a.1 * b.2) + a.2 * b.1
    (real_part, imag_part)

/-- `compute_inverse_fft`: `none` is the `NULL` return. -/
def compute_inverse_fft (lib : Fftw K) (malloc_ok plan_ok : Bool)
    (corr : List (K × K)) (n : Nat) : Option (List K) :=
  if !malloc_ok then none
  else if !plan_ok then none
  else some (lib.c2r n corr)

/-- One iteration of the loop of `find_max_index`; the state is
`(max_index, *max_value)`. -/
def find_max_index_step (data : List K) (st : Nat × K) (i : Nat) : Nat × K :=
  if data.getD i 0 > st.2 then (i, data.getD i 0) else st

/-- `find_max_index`: the returned index and the final `*max_value`. -/
def find_max_index (data : List K) (size : Nat) : Nat × K :=
  (List.range' 1 (size - 1)).foldl (find_max_index_step data) (0, data.getD 0 0)

/-- The `return` expression of the success path of `cross_correlation`:
`max_index > size1 ? max_index - n : max_index`, computed in `size_t` and
converted to the `int` return type. -/
def lag_of_index (max_index size1 : Nat) (n : Int) : Int :=
  to_int (if max_index > size1 then to_size_t ((max_index : Int) - to_size_t n)
          else max_index)

/-- `cross_correlation`. Every failure path jumps to `cleanup`, which ends in
`return 0`. -/
def cross_correlation (rc : ReturnCodes) (lib : Fftw K) (oc : Outcomes)
    (signal1 : List K) (size1 : Nat) (signal2 : List K) (size2 : Nat) : Int :=
  let n : Int := to_int (to_size_t ((size1 : Int) + size2 - 1))
  if !oc.malloc_input || !oc.fftw_malloc_results then 0
  else
    let input_data1 := initialize_input_data signal1 size1 n
    let input_data2 := initialize_input_data signal2 size2 n
    let r1 := perform_fft rc lib oc.plan_r2c_1 input_data1 (to_size_t n)
    if r1.1 ≠ rc.SUCCESS then 0
    else
      let r2 := perform_fft rc lib oc.plan_r2c_2 input_data2 (to_size_t n)
      if r2.1 ≠ rc.SUCCESS then 0
      else
        let corr := calculate_correlation r1.2 r2.2 (to_size_t n)
        match compute_inverse_fft lib oc.malloc_final oc.plan_c2r corr (to_size_t n) with
        | none => 0
        | some final_data =>
          let max_index := (find_max_index final_data (to_size_t n)).1
          lag_of_index max_index size1 n

end Correlator

/-! ## The exact discrete Fourier transform

FFTW documents its transforms as the unnormalised DFT: the forward transform
has exponent `-2πi jk/n`, the backward one `+2πi jk/n`, and the input of the
complex-to-real transform is the non-redundant half of a Hermitian spectrum. -/

/-- The root of unity `exp (2πi / n)`. -/
noncomputable def twiddle (n : Nat) : ℂ :=
  Complex.exp (2 * Real.pi * Complex.I / n)

/-- Bin `k` of the forward DFT of the first `n` entries of `x`. -/
noncomputable def dft_bin (n : Nat) (x : List ℝ) (k : Nat) : ℂ :=
  ∑ j in Finset.range n, (x.getD j 0 : ℂ) * (twiddle n)⁻¹ ^ (j * k)

/-- Exact real-to-complex transform: bins `0 .. n / 2`. -/
noncomputable def exact_r2c (n : Nat) (x : List ℝ) : List (ℝ × ℝ) :=
  (List.range (n / 2 + 1)).map fun k => ((dft_bin n x k).re, (dft_bin n x k).im)

/-- Bin `k < n` of the Hermitian spectrum whose half `y` is: bin `k` itself
for `k ≤ n / 2`, the conjugate of bin `n - k` above. -/
noncomputable def hermitian_bin (n : Nat) (y : List (ℝ × ℝ)) (k : Nat) : ℂ :=
  if k ≤ n / 2 then ⟨(y.getD k (0, 0)).1, (y.getD k (0, 0)).2⟩
  else ⟨(y.getD (n - k) (0, 0)).1, -(y.getD (n - k) (0, 0)).2⟩

/-- Exact complex-to-real transform: the real part of the backward DFT of the
Hermitian spectrum. -/
noncomputable def exact_c2r (n : Nat) (y : List (ℝ × ℝ)) : List ℝ :=
  (List.range n).map fun m =>
    (∑ k in Finset.range n, hermitian_bin n y k * twiddle n ^ (k * m)).re

/-- The transform library with both transforms exact. -/
noncomputable def exact_fftw : Fftw ℝ := ⟨exact_r2c, exact_c2r⟩

/-- Circular correlation of the first `n` entries of `a` and `b` at index `m`:
the sum of `a[(j + m) mod n] * b[j]`. -/
def circular_correlation {K : Type} [LinearOrderedRing K] (n : Nat) (a b : List K)
    (m : Nat) : K :=
  ∑ j in Finset.range n, a.getD ((j + m) % n) 0 * b.getD j 0

/-- The signal `A` shifted by `k` samples with zero fill, same length:
entry `i` is `A[i - k]` when `0 ≤ i - k < L` and `0` otherwise. -/
def shift_signal {K : Type} [LinearOrderedRing K] (A : List K) (k : Int) : List K :=
  (List.range A.length).map fun (i : Nat) =>
    if 0 ≤ (i : Int) - k ∧ (i : Int) - k < A.length then A.getD ((i : Int) - k).toNat 0 else 0

/-! ## audio_reader.c -/

def AVERROR_ENOENT : Int := -2
def AVERROR_ENOMEM : Int := -12
def AVERROR_EINVAL : Int := -22
def AVERROR_EAGAIN : Int := -11
def AVERROR_INVALIDDATA : Int := -1094995529
def AVERROR_EOF : Int := -541478725
def AVERROR_EIO : Int := -5

/-- `error`: releases the converter and the decode state, prints `msg` and
returns `error_code`. Only the returned value is modelled. -/
def error (error_code : Int) : Int := error_code

/-- `handle_av_error`: the `switch` on the library error. -/
def handle_av_error (rc : ReturnCodes) (ret : Int) : Int :=
  if ret = AVERROR_ENOENT then error rc.ERROR_CANNOT_OPEN_FILE
  else if ret = AVERROR_ENOMEM then error rc.ERROR_NOTENOUGH_MEMORY
  else if ret = AVERROR_INVALIDDATA then error rc.ERROR_DATA_INVALID
  else if ret = AVERROR_EINVAL then error rc.ERROR_ARGUMENTS_INVALID
  else if ret = AVERROR_EAGAIN then error rc.ERROR_UNSUPPORTED
  else if ret = AVERROR_EOF then error rc.ERROR_FORMAT_INVALID
  else error rc.ERROR_UNKNOWN

/-- Results of the library calls of `open_audio_file`, in source order, and the
two fields of the opened codec context that the callers read. -/
structure OpenResults where
  /-- `avformat_alloc_context` returned a context -/
  alloc_context_ok : Bool
  /-- value of `avformat_open_input` -/
  open_input_ret : Int
  /-- value of `avformat_find_stream_info` -/
  find_stream_info_ret : Int
  /-- value of `av_find_best_stream`, stored in `utils->stream_index` -/
  best_stream : Int
  /-- `avcodec_alloc_context3` returned a context -/
  codec_alloc_ok : Bool
  /-- value of `avcodec_parameters_to_context` -/
  parameters_to_context_ret : Int
  /-- value of `avcodec_open2` -/
  open2_ret : Int
  /-- `codec_context->channels` -/
  channels : Int
  /-- `codec_context->sample_rate` -/
  sample_rate : Int
  deriving Repr, DecidableEq

/-- One frame delivered by `avcodec_receive_frame` (a call that returned 0)
and the results of the calls made for it. -/
structure Frame (K : Type) where
  /-- value of `av_samples_alloc` -/
  samples_alloc_ret : Int
  /-- value of `swr_convert` -/
  frame_count : Int
  /-- what `swr_convert` wrote to `buffer` -/
  converted : List K
  /-- whether `realloc` returns a block, if it is called for this frame -/
  realloc_ok : Bool
  deriving Repr, DecidableEq

/-- One packet delivered by `av_read_frame` (a call that returned `≥ 0`):
its stream index, the result of `avcodec_send_packet`, the frames received for
it, and the non-zero value of `avcodec_receive_frame` that ends its inner
loop. -/
structure Packet (K : Type) where
  /-- `packet.stream_index` -/
  stream_index : Int
  /-- value of `avcodec_send_packet` -/
  send_ret : Int
  /-- the frames for which `avcodec_receive_frame` returned 0, in order -/
  frames : List (Frame K)
  /-- the non-zero value of `avcodec_receive_frame` after the last frame -/
  receive_end : Int
  deriving Repr, DecidableEq

/-- Behaviour of the media library for one opened resource: the results of
opening it, of setting up the converter, of the two allocations that precede
the loop, the packets read, and the negative value of `av_read_frame` that
ends the loop (`AVERROR_EOF` at end of input, another code on a read error). -/
structure Media (K : Type) where
  /-- the calls of `open_audio_file` -/
  opened : OpenResults
  /-- `swr_alloc` returned a converter -/
  swr_alloc_ok : Bool
  /-- none of the option and channel-mapping calls returned a negative value -/
  swr_options_ok : Bool
  /-- value of `swr_init` -/
  swr_init_ret : Int
  /-- `av_frame_alloc` returned a frame -/
  frame_alloc_ok : Bool
  /-- `malloc(data_capacity * sizeof(double))` returned a block -/
  malloc_ok : Bool
  /-- the packets for which `av_read_frame` returned `≥ 0`, in order -/
  packets : List (Packet K)
  /-- the negative value of `av_read_frame` after the last packet -/
  read_end : Int
  deriving Repr, DecidableEq

/-- `AudioArray`; `data = none` is a null (or released) pointer, otherwise the
list holds the samples written so far. -/
structure AudioArray (K : Type) where
  data : Option (List K)
  size : Nat
  sample_rate : Int
  deriving Repr, DecidableEq

/-- `open_audio_file`: the return code; the fields of `Utilities` are those of
`OpenResults`. The result of `handle_av_error` after a failed
`avformat_open_input` is discarded by the source and execution goes on. -/
def open_audio_file (rc : ReturnCodes) (o : OpenResults) : Int :=
  if !o.alloc_context_ok then error rc.ERROR_FORMAT_INVALID
  else
    let _discarded := if o.open_input_ret < 0 then handle_av_error rc o.open_input_ret else 0
    if o.find_stream_info_ret < 0 then error rc.ERROR_FORMAT_INVALID
    else if o.best_stream < 0 then error rc.ERROR_FORMAT_INVALID
    else if !o.codec_alloc_ok then error rc.ERROR_FORMAT_INVALID
    else if o.parameters_to_context_ret < 0 then error rc.ERROR_FORMAT_INVALID
    else if o.open2_ret < 0 then error rc.ERROR_FORMAT_INVALID
    else 0

/-- `init_swr_context`: `true` when a converter is returned, `false` for
`NULL`. -/
def init_swr_context {K : Type} (m : Media K) : Bool :=
  if !m.swr_alloc_ok then false
  else if !m.swr_options_ok then false
  else if m.swr_init_ret < 0 then false
  else true

/-- The variables of `process_audio_frames` that the loop updates:
`audio_array->data`, `audio_array->size` and `data_capacity`. -/
structure BufState (K : Type) where
  data : Option (List K)
  size : Nat
  data_capacity : Nat
  deriving Repr, DecidableEq

section Reader

variable {K : Type}

/-- The `if (frame_count > 0)` block of `process_audio_frames`: at most one
doubling of the capacity, the null check, then the copy of `frame_count`
samples at offset `size`. Returns the error code, if any, and the state. -/
def process_audio_frames_append (rc : ReturnCodes) (st : BufState K) (fr : Frame K) :
    Option Int × BufState K :=
  if fr.frame_count > 0 then
    let st1 : BufState K :=
      if st.size + fr.frame_count.toNat ≥ st.data_capacity then
        { st with
          data := if fr.realloc_ok then some (st.data.getD []) else none
          data_capacity := st.data_capacity * 2 }
      else st
    match st1.data with
    | none => (some (error rc.ERROR_FORMAT_INVALID), st1)
    | some d =>
      (none, { st1 with
        data := some (d ++ fr.converted.take fr.frame_count.toNat)
        size := st1.size + fr.frame_count.toNat })
  else (none, st)

/-- The inner loop `while (avcodec_receive_frame(...) == 0)`. -/
def process_audio_frames_receive (rc : ReturnCodes) :
    List (Frame K) → BufState K → Option Int × BufState K
  | [], st => (none, st)
  | fr :: rest, st =>
    if fr.samples_alloc_ret < 0 then (some (handle_av_error rc fr.samples_alloc_ret), st)
    else
      match process_audio_frames_append rc st fr with
      | (some e, st1) => (some e, st1)
      | (none, st1) => process_audio_frames_receive rc rest st1

/-- The outer loop `while (av_read_frame(...) >= 0)`: the return code, the
state, and the packets passed to `avcodec_send_packet`, in order. -/
def process_audio_frames_loop (rc : ReturnCodes) (stream_index : Int) :
    List (Packet K) → BufState K → List (Packet K) → Int × BufState K × List (Packet K)
  | [], st, sent => (rc.SUCCESS, st, sent)
  | p :: rest, st, sent =>
    if p.stream_index ≠ stream_index then process_audio_frames_loop rc stream_index rest st sent
    else if p.send_ret < 0 then (handle_av_error rc p.send_ret, st, sent ++ [p])
    else
      match process_audio_frames_receive rc p.frames st with
      | (some e, st1) => (e, st1, sent ++ [p])
      | (none, st1) => process_audio_frames_loop rc stream_index rest st1 (sent ++ [p])

/-- `process_audio_frames`: the return code, the final buffer state and the
packets passed to the decoder. When the frame cannot be allocated the
function returns before it touches `*audio_array` (and before
`data_capacity` exists: the state carries 0 for it). -/
def process_audio_frames (rc : ReturnCodes) (m : Media K) (audio_array : AudioArray K)
    (stream_index : Int) : Int × BufState K × List (Packet K) :=
  if !m.frame_alloc_ok then
    (error rc.ERROR_FORMAT_INVALID, ⟨audio_array.data, audio_array.size, 0⟩, [])
  else
    let st : BufState K := ⟨if m.malloc_ok then some [] else none, 0, 1024⟩
    process_audio_frames_loop rc stream_index m.packets st []

/-- What a call of `read_audio_file` returns and leaves behind: the return
code, `*audio_array`, whether `init_swr_context` was called, and the packets
passed to the decoder. -/
structure ReadResult (K : Type) where
  ret : Int
  audio : AudioArray K
  converter_configured : Bool
  sent : List (Packet K)
  deriving Repr, DecidableEq

/-- `read_audio_file`. `audio_array` is the caller's structure on entry
(`{ NULL, 0, 0 }` in `main`). -/
def read_audio_file (rc : ReturnCodes) (m : Media K) (audio_array : AudioArray K)
    (flag : Int) (new_sample_rate : Int) : ReadResult K :=
  let ret := open_audio_file rc m.opened
  if ret > 0 then ⟨ret, audio_array, false, []⟩
  else
    let total_channels := m.opened.channels
    if flag = 1 ∧ total_channels < 2 then
      ⟨error rc.ERROR_FORMAT_INVALID, { audio_array with data := none }, false, []⟩
    else if !init_swr_context m then
      ⟨error rc.ERROR_FORMAT_INVALID, { audio_array with data := none }, true, []⟩
    else
      let r := process_audio_frames rc m { audio_array with sample_rate := new_sample_rate } flag
      if r.1 > 0 then
        ⟨error r.1, ⟨none, r.2.1.size, new_sample_rate⟩, true, r.2.2⟩
      else
        ⟨0, ⟨r.2.1.data, r.2.1.size, new_sample_rate⟩, true, r.2.2⟩

/-- `find_sample_rate`. -/
def find_sample_rate (rc : ReturnCodes) (m : Media K) : Int :=
  let ret := open_audio_file rc m.opened
  if ret > 0 then ret else m.opened.sample_rate

end Reader

/-! ## main.c -/

/-- What `main` leaves behind: the exit code and, when the correlator ran and
the report was printed, the first two numbers of the report (samples, sample
rate); the third is derived from them in floating point. -/
structure MainResult where
  exit_code : Int
  report : Option (Int × Int)
  deriving Repr, DecidableEq

/-- `main`: `argv` are the command-line words (`argc` is their number),
`files` gives the behaviour of the media library on each path. -/
def main {K : Type} [LinearOrderedRing K] (rc : ReturnCodes) (lib : Fftw K) (oc : Outcomes)
    (files : String → Media K) (argv : List String) : MainResult :=
  let argc : Int := argv.length
  if argc < 2 ∨ argc > 3 then ⟨rc.ERROR_ARGUMENTS_INVALID, none⟩
  else
    let audio0 : AudioArray K := ⟨none, 0, 0⟩
    let path1 := argv.getD 1 ""
    let path2 := argv.getD 2 ""
    let sample_rate : Int :=
      if argc = 2 then find_sample_rate rc (files path1)
      else
        let sample_rate1 := find_sample_rate rc (files path1)
        let sample_rate2 := find_sample_rate rc (files path2)
        if sample_rate1 > sample_rate2 then sample_rate1 else sample_rate2
    let r1 := read_audio_file rc (files path1) audio0 0 sample_rate
    let r2 :=
      if argc = 2 then read_audio_file rc (files path1) audio0 1 sample_rate
      else read_audio_file rc (files path2) audio0 0 sample_rate
    if r1.ret ≠ 0 ∨ r2.ret ≠ 0 then ⟨r2.ret, none⟩
    else
      let delta_samples := cross_correlation rc lib oc
        (r1.audio.data.getD []) r1.audio.size (r2.audio.data.getD []) r2.audio.size
      ⟨rc.SUCCESS, some (delta_samples, sample_rate)⟩

/-! ## Auxiliary definitions for the statements -/

/-- The contents of `final_data` on the success path of `cross_correlation`:
the array handed to `find_max_index`. -/
def final_data_of {K : Type} [LinearOrderedRing K] (lib : Fftw K)
    (signal1 : List K) (size1 : Nat) (signal2 : List K) (size2 : Nat) : List K :=
  let n : Int := to_int (to_size_t ((size1 : Int) + size2 - 1))
  lib.c2r (to_size_t n)
    (calculate_correlation
      (lib.r2c (to_size_t n) (initialize_input_data signal1 size1 n))
      (lib.r2c (to_size_t n) (initialize_input_data signal2 size2 n)) (to_size_t n))

/-- Every error code is positive: the values that the checks `ret > 0` of
`read_audio_file` and `find_sample_rate` recognise as failures. -/
def ReturnCodes.errors_positive (rc : ReturnCodes) : Prop :=
  0 < rc.ERROR_CANNOT_OPEN_FILE ∧ 0 < rc.ERROR_NOTENOUGH_MEMORY ∧
  0 < rc.ERROR_DATA_INVALID ∧ 0 < rc.ERROR_ARGUMENTS_INVALID ∧
  0 < rc.ERROR_FORMAT_INVALID ∧ 0 < rc.ERROR_UNSUPPORTED ∧ 0 < rc.ERROR_UNKNOWN

/-- The value `c` is one of the seven error codes. -/
def ReturnCodes.is_error (rc : ReturnCodes) (c : Int) : Prop :=
  c = rc.ERROR_CANNOT_OPEN_FILE ∨ c = rc.ERROR_NOTENOUGH_MEMORY ∨
  c = rc.ERROR_DATA_INVALID ∨ c = rc.ERROR_ARGUMENTS_INVALID ∨
  c = rc.ERROR_FORMAT_INVALID ∨ c = rc.ERROR_UNSUPPORTED ∨ c = rc.ERROR_UNKNOWN

/-- The buffer is not null once samples are stored. -/
def BufState.stored_ok {K : Type} (st : BufState K) : Prop := 0 < st.size → st.data ≠ none

/-! ## Sample data for concrete runs -/

/-- A sample assignment of the return codes: success is 0, errors positive. -/
def sample_codes : ReturnCodes := ⟨0, 1, 2, 3, 4, 5, 20, 250⟩

/-- A transform library over the integers whose inverse transform always
leaves `[0, 0, 0, 5, 0]`: enough to run the control flow of the correlator. -/
def sample_fftw : Fftw Int := ⟨fun _ _ => [], fun _ _ => [0, 0, 0, 5, 0]⟩

/-- A resource that opens without error: best audio stream 0, the given
number of channels, 8000 Hz. -/
def sample_open (channels : Int) : OpenResults :=
  ⟨true, 0, 0, 0, true, 0, 0, channels, 8000⟩

/-- A frame that converts to exactly the samples `l`. -/
def sample_frame (l : List Int) : Frame Int := ⟨0, l.length, l, true⟩

/-- A packet of stream `i` that decodes to one frame with samples `l`; the
decoder then asks for more input (`AVERROR(EAGAIN)`). -/
def sample_packet (i : Int) (l : List Int) : Packet Int :=
  ⟨i, 0, [sample_frame l], AVERROR_EAGAIN⟩

/-- A resource with the given channels and packets, every set-up call
succeeding, whose packet reads end with `read_end`. -/
def sample_media (channels : Int) (ps : List (Packet Int)) (read_end : Int) : Media Int :=
  ⟨sample_open channels, true, true, 0, true, true, ps, read_end⟩

/-- A resource on which three things go wrong: the decoder fails with
`AVERROR_INVALIDDATA` after the first frame of the first packet, the converter
returns `-22` for the frame of the second packet, and the third packet read
fails with `AVERROR(EIO)`. -/
def sample_damaged : Media Int :=
  sample_media 1
    [⟨0, 0, [sample_frame [1, 2]], AVERROR_INVALIDDATA⟩,
     ⟨0, 0, [⟨0, -22, [], true⟩], AVERROR_EAGAIN⟩]
    AVERROR_EIO

/-- A resource whose best audio stream is stream 1 (stream 0 is video), with
one packet of each. -/
def sample_video : Media Int :=
  ⟨⟨true, 0, 0, 1, true, 0, 0, 2, 8000⟩, true, true, 0, true, true,
    [sample_packet 0 [7], sample_packet 1 [1, 2]], AVERROR_EOF⟩

/-- A resource without any audio stream: `av_find_best_stream` returns
`AVERROR_STREAM_NOT_FOUND`. -/
def sample_no_audio : Media Int :=
  ⟨⟨true, 0, 0, -1381258232, true, 0, 0, 0, 0⟩, true, true, 0, true, true, [], AVERROR_EOF⟩

/-- Two paths: `"silent.mkv"` has no audio stream, any other path is a mono
resource with two packets of stream 0. -/
def sample_files : String → Media Int := fun path =>
  if path = "silent.mkv" then sample_no_audio
  else sample_media 1 [sample_packet 0 [1, 2], sample_packet 0 [3]] AVERROR_EOF

/-! # Theorems -/

/-! ## Machine integers -/

theorem to_size_t_natCast (a : Nat) (h : a < 2 ^ 64) : to_size_t (a : Int) = a := by
  unfold to_size_t
  have h1 : ((a : Int)) % 2 ^ 64 = a := Int.emod_eq_of_lt (by omega) (by norm_num at h ⊢; omega)
  rw [h1]
  exact Int.toNat_natCast a

theorem to_int_of_range (z : Int) (h1 : -2 ^ 31 ≤ z) (h2 : z < 2 ^ 31) : to_int z = z := by
  unfold to_int
  norm_num at h1 h2 ⊢
  omega

theorem lag_of_index_eq (p size1 n : Nat) (hn : n < 2 ^ 31) (hp : p < n) :
    lag_of_index p size1 (n : Int) = if p > size1 then (p : Int) - n else p := by
  unfold lag_of_index
  have hn64 : n < 2 ^ 64 := lt_trans hn (by norm_num)
  rw [to_size_t_natCast n hn64]
  norm_num at hn
  split_ifs with h
  · unfold to_size_t to_int
    norm_num
    omega
  · unfold to_int
    norm_num
    omega

/-! ## The peak search -/

section PeakSearch

variable {K : Type} [LinearOrderedRing K]

theorem find_max_index_succ (data : List K) (k : Nat) :
    find_max_index data (k + 2) =
      find_max_index_step data (find_max_index data (k + 1)) (k + 1) := by
  unfold find_max_index
  have h : k + 2 - 1 = (k + 1 - 1) + 1 := by omega
  rw [h, List.range'_1_concat, List.foldl_append]
  simp [Nat.add_comm]

/-- Invariant of the loop of `find_max_index` after the indices below `k + 1`:
the value is the entry at the index, the index is at most `k`, no entry up to
`k` exceeds the value, and every entry before the index is strictly below. -/
theorem find_max_index_invariant (data : List K) (k : Nat) :
    (find_max_index data (k + 1)).2 = data.getD (find_max_index data (k + 1)).1 0 ∧
    (find_max_index data (k + 1)).1 ≤ k ∧
    (∀ i, i ≤ k → data.getD i 0 ≤ (find_max_index data (k + 1)).2) ∧
    (∀ i, i < (find_max_index data (k + 1)).1 →
      data.getD i 0 < (find_max_index data (k + 1)).2) := by
  induction k with
  | zero =>
    refine ⟨by simp [find_max_index], by simp [find_max_index], ?_, ?_⟩
    · intro i hi
      have : i = 0 := by omega
      subst this
      simp [find_max_index]
    · intro i hi
      simp [find_max_index] at hi
  | succ k ih =>
    obtain ⟨h1, h2, h3, h4⟩ := ih
    rw [find_max_index_succ]
    unfold find_max_index_step
    split_ifs with hgt
    · refine ⟨rfl, le_refl _, ?_, ?_⟩
      · intro i hi
        rcases Nat.lt_or_ge i (k + 1) with hlt | hge
        · exact le_trans (h3 i (by omega)) (le_of_lt hgt)
        · have : i = k + 1 := by omega
          subst this
          exact le_refl _
      · intro i hi
        exact lt_of_le_of_lt (h3 i (by simpa using Nat.lt_succ_iff.mp hi)) hgt
    · refine ⟨h1, by omega, ?_, h4⟩
      intro i hi
      rcases Nat.lt_or_ge i (k + 1) with hlt | hge
      · exact h3 i (by omega)
      · have : i = k + 1 := by omega
        subst this
        exact not_lt.mp hgt

theorem find_max_index_lt (data : List K) (size : Nat) (h : 0 < size) :
    (find_max_index data size).1 < size := by
  obtain ⟨k, rfl⟩ : ∃ k, size = k + 1 := ⟨size - 1, by omega⟩
  have := (find_max_index_invariant data k).2.1
  omega

/-- The search returns the first index that attains the maximum. -/
theorem find_max_index_first_max (data : List K) (size p : Nat) (hp : p < size)
    (hmax : ∀ i, i < size → data.getD i 0 ≤ data.getD p 0)
    (hfirst : ∀ i, i < p → data.getD i 0 < data.getD p 0) :
    (find_max_index data size).1 = p := by
  obtain ⟨k, rfl⟩ : ∃ k, size = k + 1 := ⟨size - 1, by omega⟩
  obtain ⟨h1, h2, h3, h4⟩ := find_max_index_invariant data k
  rcases Nat.lt_trichotomy (find_max_index data (k + 1)).1 p with hlt | heq | hgt
  · have a := hfirst _ hlt
    have b := h3 p (by omega)
    rw [h1] at b
    exact absurd (lt_of_lt_of_le a b) (lt_irrefl _)
  · exact heq
  · have a := h4 p hgt
    rw [h1] at a
    have b := hmax (find_max_index data (k + 1)).1 (by omega)
    exact absurd (lt_of_lt_of_le a b) (lt_irrefl _)

end PeakSearch

/-! ## The exact transforms: the correlation theorem -/

section ExactTransforms

open Finset


theorem getD_map_range {α : Type} (f : Nat → α) (n i : Nat) (d : α) (h : i < n) :
    ((List.range n).map f).getD i d = f i := by
  simp [List.getD_eq_getElem?_getD, List.getElem?_map, List.getElem?_range h]

theorem sum_range_rotate {M : Type} [AddCommMonoid M] (n m : Nat) (f : Nat → M) :
    ∑ j in range n, f ((j + m) % n) = ∑ j in range n, f j := by
  cases n with
  | zero => simp
  | succ k =>
    rw [← Fin.sum_univ_eq_sum_range (fun j => f ((j + m) % (k + 1))) (k + 1),
      ← Fin.sum_univ_eq_sum_range f (k + 1)]
    let e : Fin (k + 1) ≃ Fin (k + 1) := Equiv.addRight (⟨m % (k + 1), Nat.mod_lt _ (Nat.succ_pos k)⟩ : Fin (k + 1))
    rw [← Equiv.sum_comp e (fun i : Fin (k + 1) => f i.val)]
    refine Finset.sum_congr rfl fun i _ => ?_
    congr 1
    simp [e, Fin.val_add, Nat.add_mod_mod]

theorem twiddle_prim (n : Nat) (hn : n ≠ 0) : IsPrimitiveRoot (twiddle n) n :=
  Complex.isPrimitiveRoot_exp n hn

theorem twiddle_conj (n : Nat) : (starRingEnd ℂ) (twiddle n) = (twiddle n)⁻¹ := by
  unfold twiddle
  rw [← Complex.exp_conj, ← Complex.exp_neg]
  congr 1
  have h2 : (starRingEnd ℂ) (2 : ℂ) = 2 := Complex.conj_ofReal 2
  simp [Complex.conj_ofReal, h2, neg_div]

theorem twiddle_pow_n (n : Nat) (hn : n ≠ 0) : twiddle n ^ n = 1 :=
  (twiddle_prim n hn).pow_eq_one

theorem twiddle_ne_zero (n : Nat) : twiddle n ≠ 0 := Complex.exp_ne_zero _

/-- geometric sum of an n-th root of unity -/
theorem root_geom_sum (n : Nat) (η : ℂ) (h : η ^ n = 1) :
    ∑ k in range n, η ^ k = if η = 1 then (n : ℂ) else 0 := by
  split_ifs with h1
  · simp [h1]
  · have := geom_sum_mul η n
    rw [h, sub_self] at this
    rcases mul_eq_zero.mp this with h2 | h2
    · exact h2
    · exact absurd (sub_eq_zero.mp h2) h1

theorem dft_bin_conj (n : Nat) (x : List ℝ) (k : Nat) :
    (starRingEnd ℂ) (dft_bin n x k) = ∑ j in range n, (x.getD j 0 : ℂ) * (twiddle n) ^ (j * k) := by
  unfold dft_bin
  rw [map_sum]
  refine Finset.sum_congr rfl fun j _ => ?_
  rw [map_mul, map_pow, map_inv₀, twiddle_conj, inv_inv, Complex.conj_ofReal]

theorem dft_bin_reflect (n : Nat) (hn : n ≠ 0) (x : List ℝ) (k : Nat) (hk : k ≤ n) :
    dft_bin n x (n - k) = (starRingEnd ℂ) (dft_bin n x k) := by
  rw [dft_bin_conj]
  unfold dft_bin
  refine Finset.sum_congr rfl fun j _ => ?_
  congr 1
  have hz := twiddle_ne_zero n
  rw [inv_pow, inv_eq_iff_eq_inv, ← inv_pow]
  have h1 : twiddle n ^ (j * (n - k)) * twiddle n ^ (j * k) = 1 := by
    rw [← pow_add, ← Nat.mul_add, Nat.sub_add_cancel hk, Nat.mul_comm, pow_mul, twiddle_pow_n n hn, one_pow]
  rw [inv_pow]
  exact eq_inv_of_mul_eq_one_left h1

theorem twiddle_char (n : Nat) (hn : n ≠ 0) (j l : Nat) (hj : j < n) :
    (twiddle n)⁻¹ ^ j * twiddle n ^ l = 1 ↔ j = l % n := by
  have hz := twiddle_ne_zero n
  have hp := twiddle_prim n hn
  rw [inv_pow, inv_mul_eq_one₀ (pow_ne_zero _ hz)]
  constructor
  · intro h
    have h2 : twiddle n ^ (l % n) = twiddle n ^ l := by
      conv_rhs => rw [← Nat.mod_add_div l n, pow_add, pow_mul, twiddle_pow_n n hn, one_pow, mul_one]
    exact hp.pow_inj hj (Nat.mod_lt _ (Nat.pos_of_ne_zero hn)) (h.trans h2.symm)
  · intro h
    subst h
    conv_rhs => rw [← Nat.mod_add_div l n, pow_add, pow_mul, twiddle_pow_n n hn, one_pow, mul_one]

theorem cross_spectrum_inverse (n : Nat) (hn : n ≠ 0) (x1 x2 : List ℝ) (m : Nat) :
    ∑ k in range n, dft_bin n x1 k * (starRingEnd ℂ) (dft_bin n x2 k) * twiddle n ^ (k * m)
      = (n : ℂ) * ∑ l in range n, (x1.getD ((l + m) % n) 0 : ℂ) * (x2.getD l 0 : ℂ) := by
  have key : ∀ k ∈ range n, dft_bin n x1 k * (starRingEnd ℂ) (dft_bin n x2 k) * twiddle n ^ (k * m)
      = ∑ l in range n, ∑ j in range n, (x1.getD j 0 : ℂ) * (x2.getD l 0 : ℂ) *
          ((twiddle n)⁻¹ ^ j * twiddle n ^ (l + m)) ^ k := by
    intro k _
    rw [dft_bin_conj]
    unfold dft_bin
    rw [Finset.sum_mul_sum, Finset.sum_mul, Finset.sum_comm]
    refine Finset.sum_congr rfl fun l _ => ?_
    rw [Finset.sum_mul]
    refine Finset.sum_congr rfl fun j _ => ?_
    rw [mul_pow, ← pow_mul, ← pow_mul, Nat.add_mul, pow_add]
    ring
  rw [Finset.sum_congr rfl key, Finset.sum_comm, Finset.mul_sum]
  refine Finset.sum_congr rfl fun l _ => ?_
  rw [Finset.sum_comm]
  have h2 : ∀ j ∈ range n, ∑ k in range n, (x1.getD j 0 : ℂ) * (x2.getD l 0 : ℂ) *
          ((twiddle n)⁻¹ ^ j * twiddle n ^ (l + m)) ^ k
        = if j = (l + m) % n then (n : ℂ) * ((x1.getD j 0 : ℂ) * (x2.getD l 0 : ℂ)) else 0 := by
    intro j hj
    rw [← Finset.mul_sum, root_geom_sum]
    · simp only [twiddle_char n hn j (l + m) (Finset.mem_range.mp hj)]
      split_ifs <;> ring
    · rw [mul_pow, ← pow_mul, ← pow_mul, Nat.mul_comm j n, Nat.mul_comm (l + m) n, pow_mul, pow_mul,
        inv_pow, twiddle_pow_n n hn]
      simp
  rw [Finset.sum_congr rfl h2, Finset.sum_ite_eq']
  simp [Nat.mod_lt _ (Nat.pos_of_ne_zero hn)]

theorem exact_r2c_getD (n : Nat) (x : List ℝ) (k : Nat) (hk : k ≤ n / 2) :
    (exact_r2c n x).getD k (0, 0) = ((dft_bin n x k).re, (dft_bin n x k).im) := by
  unfold exact_r2c
  exact getD_map_range _ _ _ _ (by omega)

theorem cross_bin (n : Nat) (x1 x2 : List ℝ) (k : Nat) (hk : k ≤ n / 2) :
    (⟨((calculate_correlation (exact_r2c n x1) (exact_r2c n x2) n).getD k (0, 0)).1,
      ((calculate_correlation (exact_r2c n x1) (exact_r2c n x2) n).getD k (0, 0)).2⟩ : ℂ) =
      dft_bin n x1 k * (starRingEnd ℂ) (dft_bin n x2 k) := by
  unfold calculate_correlation
  rw [getD_map_range _ _ _ _ (by omega)]
  simp only [exact_r2c_getD n x1 k hk, exact_r2c_getD n x2 k hk]
  apply Complex.ext
  · simp [Complex.mul_re]
  · simp [Complex.mul_im]

theorem hermitian_bin_cross (n : Nat) (hn : n ≠ 0) (x1 x2 : List ℝ) (k : Nat) (hk : k < n) :
    hermitian_bin n (calculate_correlation (exact_r2c n x1) (exact_r2c n x2) n) k =
      dft_bin n x1 k * (starRingEnd ℂ) (dft_bin n x2 k) := by
  unfold hermitian_bin
  split_ifs with h
  · exact cross_bin n x1 x2 k h
  · have h2 : n - k ≤ n / 2 := by omega
    have hc := cross_bin n x1 x2 (n - k) h2
    have e : ∀ z : ℂ, (⟨z.re, -z.im⟩ : ℂ) = (starRingEnd ℂ) z := fun z => by
      apply Complex.ext <;> simp
    have e2 := e (⟨((calculate_correlation (exact_r2c n x1) (exact_r2c n x2) n).getD
        (n - k) (0, 0)).1,
      ((calculate_correlation (exact_r2c n x1) (exact_r2c n x2) n).getD (n - k) (0, 0)).2⟩ : ℂ)
    simp only at e2
    rw [e2, hc, map_mul, Complex.conj_conj, dft_bin_reflect n hn x1 k (le_of_lt hk),
      dft_bin_reflect n hn x2 k (le_of_lt hk), Complex.conj_conj]

/-- With exact transforms, the inverse transform of the cross spectrum is `n`
times the circular correlation of the two inputs. -/
theorem exact_final_data (n : Nat) (hn : n ≠ 0) (x1 x2 : List ℝ) :
    exact_c2r n (calculate_correlation (exact_r2c n x1) (exact_r2c n x2) n) =
      (List.range n).map fun m => (n : ℝ) * circular_correlation n x1 x2 m := by
  unfold exact_c2r
  apply List.map_congr_left
  intro m _
  have h1 : ∑ k in range n,
      hermitian_bin n (calculate_correlation (exact_r2c n x1) (exact_r2c n x2) n) k *
        twiddle n ^ (k * m) =
      ∑ k in range n, dft_bin n x1 k * (starRingEnd ℂ) (dft_bin n x2 k) * twiddle n ^ (k * m) :=
    Finset.sum_congr rfl fun k hk => by
      rw [hermitian_bin_cross n hn x1 x2 k (Finset.mem_range.mp hk)]
  rw [h1, cross_spectrum_inverse n hn x1 x2 m]
  unfold circular_correlation
  have h2 : ((n : ℂ) * ∑ l in range n, (x1.getD ((l + m) % n) 0 : ℂ) * (x2.getD l 0 : ℂ)) =
      (((n : ℝ) * ∑ l in range n, x1.getD ((l + m) % n) 0 * x2.getD l 0 : ℝ) : ℂ) := by
    push_cast
    rfl
  rw [h2, Complex.ofReal_re]

end ExactTransforms

/-! ## The correlator: control flow -/

section CorrelatorFlow

variable {K : Type} [LinearOrderedRing K]

theorem size_conversions (size1 size2 : Nat) (h : 1 ≤ size1 + size2)
    (hn : size1 + size2 - 1 < 2 ^ 31) :
    to_int (to_size_t ((size1 : Int) + size2 - 1)) = ((size1 + size2 - 1 : Nat) : Int) := by
  have e : (size1 : Int) + size2 - 1 = ((size1 + size2 - 1 : Nat) : Int) := by omega
  rw [e, to_size_t_natCast _ (lt_trans hn (by norm_num))]
  apply to_int_of_range
  · have : (0 : Int) ≤ ((size1 + size2 - 1 : Nat) : Int) := Int.natCast_nonneg _
    norm_num
    omega
  · exact_mod_cast hn

/-- On the success path the result is the lag conversion of the peak index of
`final_data`. -/
theorem cross_correlation_success (rc : ReturnCodes) (lib : Fftw K)
    (signal1 : List K) (size1 : Nat) (signal2 : List K) (size2 : Nat) :
    cross_correlation rc lib Outcomes.all_ok signal1 size1 signal2 size2 =
      lag_of_index
        (find_max_index (final_data_of lib signal1 size1 signal2 size2)
          (to_size_t (to_int (to_size_t ((size1 : Int) + size2 - 1))))).1
        size1 (to_int (to_size_t ((size1 : Int) + size2 - 1))) := by
  simp [cross_correlation, final_data_of, Outcomes.all_ok, perform_fft, compute_inverse_fft]

/-- On the success path, for lengths in range: the peak index is below `n`
and the result is its lag conversion. -/
theorem cross_correlation_of_peak (rc : ReturnCodes) (lib : Fftw K)
    (signal1 : List K) (size1 : Nat) (signal2 : List K) (size2 : Nat)
    (h1 : 1 ≤ size1) (h2 : 1 ≤ size2) (hn : size1 + size2 - 1 < 2 ^ 31) (p : Nat)
    (hpeak : (find_max_index (final_data_of lib signal1 size1 signal2 size2)
      (size1 + size2 - 1)).1 = p) :
    p < size1 + size2 - 1 ∧
    cross_correlation rc lib Outcomes.all_ok signal1 size1 signal2 size2 =
      if p > size1 then (p : Int) - ((size1 + size2 - 1 : Nat) : Int) else (p : Int) := by
  have hp : p < size1 + size2 - 1 := by
    rw [← hpeak]
    exact find_max_index_lt _ _ (by omega)
  refine ⟨hp, ?_⟩
  rw [cross_correlation_success, size_conversions size1 size2 (by omega) hn,
    to_size_t_natCast _ (lt_trans hn (by norm_num)), hpeak]
  exact lag_of_index_eq p size1 _ hn hp

/-- Claim C4. For lengths `size1, size2 ≥ 1` with `n = size1 + size2 - 1` below
`2 ^ 31`, whatever the transforms leave in `final_data`: if the peak search
returns `p`, then `p < n` and `cross_correlation` returns `p - n` when
`p > size1` and `p` otherwise, the subtraction being done in `size_t` and the
result converted to `int`. -/
theorem cross_correlation_lag_conversion (rc : ReturnCodes) (lib : Fftw K)
    (signal1 : List K) (size1 : Nat) (signal2 : List K) (size2 : Nat)
    (h1 : 1 ≤ size1) (h2 : 1 ≤ size2) (hn : size1 + size2 - 1 < 2 ^ 31) (p : Nat)
    (hpeak : (find_max_index (final_data_of lib signal1 size1 signal2 size2)
      (size1 + size2 - 1)).1 = p) :
    p < size1 + size2 - 1 ∧
    cross_correlation rc lib Outcomes.all_ok signal1 size1 signal2 size2 =
      if p > size1 then (p : Int) - ((size1 + size2 - 1 : Nat) : Int) else (p : Int) :=
  cross_correlation_of_peak rc lib signal1 size1 signal2 size2 h1 h2 hn p hpeak

/-- Claim C4 on a concrete run: lengths 2 and 4, peak index 3, result `-2`. -/
theorem cross_correlation_lag_conversion_witness :
    3 < 2 + 4 - 1 ∧
    cross_correlation sample_codes sample_fftw Outcomes.all_ok [1, 1] 2 [1, 1, 1, 1] 4 =
      if 3 > 2 then ((3 : Nat) : Int) - ((2 + 4 - 1 : Nat) : Int) else ((3 : Nat) : Int) :=
  cross_correlation_lag_conversion sample_codes sample_fftw [1, 1] 2 [1, 1, 1, 1] 4
    (by decide) (by decide) (by norm_num) 3 (by decide)

end CorrelatorFlow

/-! ## The correlator with exact transforms -/

section ExactCorrelator

open Finset

/-- With exact transforms and a non-zero transform length, `final_data` is the
scaled circular correlation of the two zero-padded inputs. -/
theorem final_data_of_exact (signal1 : List ℝ) (size1 : Nat) (signal2 : List ℝ) (size2 : Nat)
    (n : Int) (hn : n = to_int (to_size_t ((size1 : Int) + size2 - 1)))
    (h0 : to_size_t n ≠ 0) :
    final_data_of exact_fftw signal1 size1 signal2 size2 =
      (List.range (to_size_t n)).map fun m =>
        ((to_size_t n : Nat) : ℝ) * circular_correlation (to_size_t n)
          (initialize_input_data signal1 size1 n) (initialize_input_data signal2 size2 n) m := by
  rw [hn] at h0 ⊢
  have key := exact_final_data (to_size_t (to_int (to_size_t ((size1 : Int) + size2 - 1)))) h0
    (initialize_input_data signal1 size1 (to_int (to_size_t ((size1 : Int) + size2 - 1))))
    (initialize_input_data signal2 size2 (to_int (to_size_t ((size1 : Int) + size2 - 1))))
  simp only [final_data_of, exact_fftw]
  exact key

/-- If the second sequence is the first one rotated by `p`, the circular
correlation is largest at index `p`. -/
theorem circular_correlation_le (N : Nat) (x1 x2 : List ℝ) (p : Nat)
    (hp : ∀ j, j < N → x2.getD j 0 = x1.getD ((j + p) % N) 0) (m : Nat) :
    circular_correlation N x1 x2 m ≤ circular_correlation N x1 x2 p := by
  unfold circular_correlation
  have hrot : ∀ q, ∑ j in range N, x1.getD ((j + q) % N) 0 ^ 2 =
      ∑ j in range N, x1.getD j 0 ^ 2 :=
    fun q => sum_range_rotate N q (fun i => x1.getD i 0 ^ 2)
  have hsq2 : ∑ j in range N, x2.getD j 0 ^ 2 = ∑ j in range N, x1.getD j 0 ^ 2 := by
    rw [← hrot p]
    exact Finset.sum_congr rfl fun j hj => by rw [hp j (Finset.mem_range.mp hj)]
  have hpeak : ∑ j in range N, x1.getD ((j + p) % N) 0 * x2.getD j 0 =
      ∑ j in range N, x1.getD j 0 ^ 2 := by
    rw [← hrot p]
    exact Finset.sum_congr rfl fun j hj => by rw [hp j (Finset.mem_range.mp hj)]; ring
  rw [hpeak]
  have hterm : ∀ j ∈ range N, x1.getD ((j + m) % N) 0 * x2.getD j 0 ≤
      (x1.getD ((j + m) % N) 0 ^ 2 + x2.getD j 0 ^ 2) / 2 := fun j _ => by
    nlinarith [sq_nonneg (x1.getD ((j + m) % N) 0 - x2.getD j 0)]
  calc ∑ j in range N, x1.getD ((j + m) % N) 0 * x2.getD j 0
      ≤ ∑ j in range N, (x1.getD ((j + m) % N) 0 ^ 2 + x2.getD j 0 ^ 2) / 2 :=
        Finset.sum_le_sum hterm
    _ = (∑ j in range N, x1.getD ((j + m) % N) 0 ^ 2 + ∑ j in range N, x2.getD j 0 ^ 2) / 2 := by
        rw [← Finset.sum_div, Finset.sum_add_distrib]
    _ = ∑ j in range N, x1.getD j 0 ^ 2 := by
        rw [hrot m, hsq2]
        ring

theorem getD_initialize_input_data (signal : List ℝ) (n : Int) (i : Nat) :
    (initialize_input_data signal signal.length n).getD i 0 = signal.getD i 0 := by
  unfold initialize_input_data
  rw [List.take_length]
  rcases Nat.lt_or_ge i signal.length with h | h
  · rw [List.getD_append _ _ _ _ h]
  · rw [List.getD_append_right _ _ _ _ h, List.getD_eq_default _ _ h]
    split_ifs
    · simp only [List.getD_eq_getElem?_getD, List.getElem?_replicate]
      split_ifs <;> rfl
    · simp

theorem circular_correlation_pad (N : Nat) (signal1 signal2 : List ℝ) (n : Int) (m : Nat) :
    circular_correlation N (initialize_input_data signal1 signal1.length n)
      (initialize_input_data signal2 signal2.length n) m =
    circular_correlation N signal1 signal2 m := by
  unfold circular_correlation
  exact Finset.sum_congr rfl fun j _ => by
    rw [getD_initialize_input_data, getD_initialize_input_data]

/-- With exact transforms the result is the lag conversion of the first index
at which the circular correlation of the two signals is largest. -/
theorem cross_correlation_exact_of_peak (rc : ReturnCodes) (signal1 signal2 : List ℝ)
    (h1 : 1 ≤ signal1.length) (h2 : 1 ≤ signal2.length)
    (hn : signal1.length + signal2.length - 1 < 2 ^ 31) (p : Nat)
    (hp : p < signal1.length + signal2.length - 1)
    (hmax : ∀ i, i < signal1.length + signal2.length - 1 →
      circular_correlation (signal1.length + signal2.length - 1) signal1 signal2 i ≤
      circular_correlation (signal1.length + signal2.length - 1) signal1 signal2 p)
    (hfirst : ∀ i, i < p →
      circular_correlation (signal1.length + signal2.length - 1) signal1 signal2 i <
      circular_correlation (signal1.length + signal2.length - 1) signal1 signal2 p) :
    cross_correlation rc exact_fftw Outcomes.all_ok signal1 signal1.length
        signal2 signal2.length =
      if p > signal1.length then (p : Int) - ((signal1.length + signal2.length - 1 : Nat) : Int)
      else (p : Int) := by
  have hN : (0 : ℝ) < ((signal1.length + signal2.length - 1 : Nat) : ℝ) := by
    exact_mod_cast (by omega : 0 < signal1.length + signal2.length - 1)
  have hconv := size_conversions signal1.length signal2.length (by omega) hn
  have hsz : to_size_t ((signal1.length + signal2.length - 1 : Nat) : Int) =
      signal1.length + signal2.length - 1 := to_size_t_natCast _ (lt_trans hn (by norm_num))
  have hdata : ∀ i, i < signal1.length + signal2.length - 1 →
      (final_data_of exact_fftw signal1 signal1.length signal2 signal2.length).getD i 0 =
      ((signal1.length + signal2.length - 1 : Nat) : ℝ) *
        circular_correlation (signal1.length + signal2.length - 1) signal1 signal2 i := by
    intro i hi
    rw [final_data_of_exact signal1 signal1.length signal2 signal2.length _ hconv.symm
      (by rw [hsz]; omega), hsz, getD_map_range _ _ _ _ hi, circular_correlation_pad]
  refine (cross_correlation_of_peak rc exact_fftw signal1 signal1.length signal2
    signal2.length h1 h2 hn p ?_).2
  apply find_max_index_first_max _ _ p hp
  · intro i hi
    rw [hdata i hi, hdata p hp]
    exact mul_le_mul_of_nonneg_left (hmax i hi) (le_of_lt hN)
  · intro i hi
    rw [hdata i (lt_trans hi hp), hdata p hp]
    exact mul_lt_mul_of_pos_left (hfirst i hi) hN

/-- With exact transforms and lengths in range, `final_data` is `n` times the
circular correlation of the two signals. -/
theorem final_data_of_exact_signals (signal1 signal2 : List ℝ)
    (h : 1 ≤ signal1.length + signal2.length)
    (hn : signal1.length + signal2.length - 1 < 2 ^ 31)
    (h0 : signal1.length + signal2.length - 1 ≠ 0) :
    final_data_of exact_fftw signal1 signal1.length signal2 signal2.length =
      (List.range (signal1.length + signal2.length - 1)).map fun m =>
        ((signal1.length + signal2.length - 1 : Nat) : ℝ) *
          circular_correlation (signal1.length + signal2.length - 1) signal1 signal2 m := by
  have hconv := size_conversions signal1.length signal2.length h hn
  have hsz : to_size_t ((signal1.length + signal2.length - 1 : Nat) : Int) =
      signal1.length + signal2.length - 1 := to_size_t_natCast _ (lt_trans hn (by norm_num))
  rw [final_data_of_exact signal1 signal1.length signal2 signal2.length _ hconv.symm
    (by rw [hsz]; exact h0), hsz]
  apply List.map_congr_left
  intro m _
  rw [circular_correlation_pad]

/-- Claim C3, failing input. With exact transforms, `A = [0, 0, 1]` and
`B = [1, 0, 0]`: the correlation sequence of `(A, B)` is `[0, 0, 5, 0, 0]`,
with its only maximum at index 2, and that of `(B, A)` is `[0, 0, 0, 5, 0]`;
`cross_correlation(A, B)` is `2` and `cross_correlation(B, A)` is `3`, not
`-2`, because index 3 is not greater than `size1 = 3`. -/
theorem cross_correlation_swap_not_negated :
    final_data_of exact_fftw [0, 0, 1] 3 [1, 0, 0] 3 = [0, 0, 5, 0, 0] ∧
    final_data_of exact_fftw [1, 0, 0] 3 [0, 0, 1] 3 = [0, 0, 0, 5, 0] ∧
    cross_correlation sample_codes exact_fftw Outcomes.all_ok [0, 0, 1] 3 [1, 0, 0] 3 = 2 ∧
    cross_correlation sample_codes exact_fftw Outcomes.all_ok [1, 0, 0] 3 [0, 0, 1] 3 = 3 := by
  refine ⟨?_, ?_, ?_, ?_⟩
  · have h := final_data_of_exact_signals [0, 0, 1] [1, 0, 0] (by simp) (by simp) (by simp)
    simp only [List.length_cons, List.length_nil] at h
    rw [h]
    simp [List.range_succ, circular_correlation, Finset.sum_range_succ]
  · have h := final_data_of_exact_signals [1, 0, 0] [0, 0, 1] (by simp) (by simp) (by simp)
    simp only [List.length_cons, List.length_nil] at h
    rw [h]
    simp [List.range_succ, circular_correlation, Finset.sum_range_succ]
  · have h := cross_correlation_exact_of_peak sample_codes [0, 0, 1] [1, 0, 0]
      (by simp) (by simp) (by simp) 2 (by simp)
      (by
        intro i hi
        simp only [List.length_cons, List.length_nil] at hi
        interval_cases i <;>
          simp [circular_correlation, Finset.sum_range_succ])
      (by
        intro i hi
        interval_cases i <;>
          simp [circular_correlation, Finset.sum_range_succ])
    simpa using h
  · have h := cross_correlation_exact_of_peak sample_codes [1, 0, 0] [0, 0, 1]
      (by simp) (by simp) (by simp) 3 (by simp)
      (by
        intro i hi
        simp only [List.length_cons, List.length_nil] at hi
        interval_cases i <;>
          simp [circular_correlation, Finset.sum_range_succ])
      (by
        intro i hi
        interval_cases i <;>
          simp [circular_correlation, Finset.sum_range_succ])
    simpa using h

theorem sum_sq_rotate (N : Nat) (x : List ℝ) (q : Nat) :
    ∑ j in range N, x.getD ((j + q) % N) 0 ^ 2 = ∑ j in range N, x.getD j 0 ^ 2 :=
  sum_range_rotate N q (fun i => x.getD i 0 ^ 2)

theorem circular_correlation_at_rotation (N : Nat) (x1 x2 : List ℝ) (p : Nat)
    (hp : ∀ j, j < N → x2.getD j 0 = x1.getD ((j + p) % N) 0) :
    circular_correlation N x1 x2 p = ∑ j in range N, x1.getD j 0 ^ 2 ∧
    ∑ j in range N, x2.getD j 0 ^ 2 = ∑ j in range N, x1.getD j 0 ^ 2 := by
  unfold circular_correlation
  constructor
  · rw [← sum_sq_rotate N x1 p]
    exact Finset.sum_congr rfl fun j hj => by rw [hp j (Finset.mem_range.mp hj)]; ring
  · rw [← sum_sq_rotate N x1 p]
    exact Finset.sum_congr rfl fun j hj => by rw [hp j (Finset.mem_range.mp hj)]

/-- Equality with the peak value forces the rotated first sequence to agree
with the second one entry by entry. -/
theorem circular_correlation_eq_peak (N : Nat) (x1 x2 : List ℝ) (p : Nat)
    (hp : ∀ j, j < N → x2.getD j 0 = x1.getD ((j + p) % N) 0) (m : Nat)
    (heq : circular_correlation N x1 x2 m = circular_correlation N x1 x2 p) :
    ∀ j, j < N → x1.getD ((j + m) % N) 0 = x2.getD j 0 := by
  obtain ⟨hpk, hsq2⟩ := circular_correlation_at_rotation N x1 x2 p hp
  rw [hpk] at heq
  unfold circular_correlation at heq
  have hsum : ∑ j in range N, (x1.getD ((j + m) % N) 0 - x2.getD j 0) ^ 2 = 0 := by
    have e : ∀ j ∈ range N, (x1.getD ((j + m) % N) 0 - x2.getD j 0) ^ 2 =
        x1.getD ((j + m) % N) 0 ^ 2 + x2.getD j 0 ^ 2 -
          2 * (x1.getD ((j + m) % N) 0 * x2.getD j 0) := fun j _ => by ring
    rw [Finset.sum_congr rfl e, Finset.sum_sub_distrib, Finset.sum_add_distrib,
      ← Finset.mul_sum, heq, sum_sq_rotate, hsq2]
    ring
  intro j hj
  have h0 := (Finset.sum_eq_zero_iff_of_nonneg (fun i _ => sq_nonneg _)).mp hsum j
    (Finset.mem_range.mpr hj)
  have h1 := pow_eq_zero_iff (two_ne_zero) |>.mp h0
  linarith

/-- A sequence that vanishes from `L` on and is invariant under a circular
shift by `d` with `0 < d ≤ L - 1`, modulo `2 L - 1`, is zero. -/
theorem no_short_period (f : Nat → ℝ) (L N d : Nat) (hN : N = 2 * L - 1)
    (hz : ∀ i, L ≤ i → f i = 0) (hd0 : 0 < d) (hdL : d ≤ L - 1)
    (hinv : ∀ j, j < N → f ((j + d) % N) = f j) : ∀ j, f j = 0 := by
  have key : ∀ k j, N - j ≤ k → f j = 0 := by
    intro k
    induction k with
    | zero =>
      intro j hj
      exact hz j (by omega)
    | succ k ih =>
      intro j hj
      rcases Nat.lt_or_ge j L with hlt | hge
      · have h1 : j + d < N := by omega
        have h2 := hinv j (by omega)
        rw [Nat.mod_eq_of_lt h1] at h2
        rw [← h2]
        exact ih (j + d) (by omega)
      · exact hz j hge
  exact fun j => key (N - j) j (le_refl _)

/-- The same for every shift `0 < d < 2 L - 1`: one of `d` and `2 L - 1 - d` is
at most `L - 1`. -/
theorem no_circular_period (f : Nat → ℝ) (L N d : Nat) (hL : 1 ≤ L) (hN : N = 2 * L - 1)
    (hz : ∀ i, L ≤ i → f i = 0) (hd0 : 0 < d) (hdN : d < N)
    (hinv : ∀ j, j < N → f ((j + d) % N) = f j) : ∀ j, f j = 0 := by
  rcases Nat.lt_or_ge d L with hlt | hge
  · exact no_short_period f L N d hN hz hd0 (by omega) hinv
  · apply no_short_period f L N (N - d) hN hz (by omega) (by omega)
    intro j hj
    have hpos : 0 < N := by omega
    have h1 := hinv ((j + (N - d)) % N) (Nat.mod_lt _ hpos)
    have h2 : ((j + (N - d)) % N + d) % N = j := by
      rw [Nat.mod_add_mod, show j + (N - d) + d = j + N by omega, Nat.add_mod_right,
        Nat.mod_eq_of_lt hj]
    rw [h2] at h1
    exact h1.symm

/-- Away from the rotation index the circular correlation is strictly smaller,
for a non-zero first sequence of length at most `L` and modulus `2 L - 1`. -/
theorem circular_correlation_lt (L N : Nat) (x1 x2 : List ℝ) (hL : 1 ≤ L)
    (hN : N = 2 * L - 1) (hlen : x1.length ≤ L) (hne : ∃ i, x1.getD i 0 ≠ 0)
    (p : Nat) (hpN : p < N) (hp : ∀ j, j < N → x2.getD j 0 = x1.getD ((j + p) % N) 0)
    (m : Nat) (hm : m < N) (hmp : m ≠ p) :
    circular_correlation N x1 x2 m < circular_correlation N x1 x2 p := by
  refine lt_of_le_of_ne (circular_correlation_le N x1 x2 p hp m) fun heq => ?_
  have hpt := circular_correlation_eq_peak N x1 x2 p hp m heq
  have hsame : ∀ j, j < N → x1.getD ((j + m) % N) 0 = x1.getD ((j + p) % N) 0 :=
    fun j hj => (hpt j hj).trans (hp j hj)
  have hz : ∀ i, L ≤ i → x1.getD i 0 = 0 :=
    fun i hi => List.getD_eq_default _ _ (le_trans hlen hi)
  have hpos : 0 < N := by omega
  obtain ⟨i, hi⟩ := hne
  apply hi
  rcases Nat.lt_or_gt_of_ne hmp with hlt | hgt
  · -- m < p : shift by p - m
    refine no_circular_period (fun i => x1.getD i 0) L N (p - m) hL hN hz (by omega) (by omega)
      ?_ i
    intro j hj
    have h1 := hsame ((j + (N - m)) % N) (Nat.mod_lt _ hpos)
    have h2 : ((j + (N - m)) % N + m) % N = j := by
      rw [Nat.mod_add_mod, show j + (N - m) + m = j + N by omega, Nat.add_mod_right,
        Nat.mod_eq_of_lt hj]
    have h3 : ((j + (N - m)) % N + p) % N = (j + (p - m)) % N := by
      rw [Nat.mod_add_mod, show j + (N - m) + p = j + (p - m) + N by omega, Nat.add_mod_right]
    rw [h2, h3] at h1
    exact h1.symm
  · refine no_circular_period (fun i => x1.getD i 0) L N (m - p) hL hN hz (by omega) (by omega)
      ?_ i
    intro j hj
    have h1 := hsame ((j + (N - p)) % N) (Nat.mod_lt _ hpos)
    have h2 : ((j + (N - p)) % N + p) % N = j := by
      rw [Nat.mod_add_mod, show j + (N - p) + p = j + N by omega, Nat.add_mod_right,
        Nat.mod_eq_of_lt hj]
    have h3 : ((j + (N - p)) % N + m) % N = (j + (m - p)) % N := by
      rw [Nat.mod_add_mod, show j + (N - p) + m = j + (m - p) + N by omega, Nat.add_mod_right]
    rw [h2, h3] at h1
    exact h1

theorem shift_signal_length (A : List ℝ) (k : Int) : (shift_signal A k).length = A.length := by
  simp [shift_signal]

theorem shift_signal_getD (A : List ℝ) (k : Int) (j : Nat) :
    (shift_signal A k).getD j 0 =
      if j < A.length ∧ 0 ≤ (j : Int) - k ∧ (j : Int) - k < A.length
      then A.getD ((j : Int) - k).toNat 0 else 0 := by
  rcases Nat.lt_or_ge j A.length with h | h
  · unfold shift_signal
    rw [getD_map_range _ _ _ _ h]
    simp [h]
  · rw [List.getD_eq_default _ _ (by rw [shift_signal_length]; exact h)]
    have : ¬ j < A.length := by omega
    simp [this]

/-- Shift towards earlier samples (`k = -t`): rotation index `t`. -/
theorem shift_signal_rotation_neg (A : List ℝ) (t : Nat) (ht : t ≤ A.length - 1)
    (hloss : ∀ i : Nat, i < A.length →
      ((i : Int) + (-(t : Int)) < 0 ∨ (A.length : Int) ≤ (i : Int) + (-(t : Int))) →
      A.getD i 0 = 0)
    (j : Nat) (hj : j < A.length + A.length - 1) :
    (shift_signal A (-(t : Int))).getD j 0 =
      A.getD ((j + t) % (A.length + A.length - 1)) 0 := by
  rw [shift_signal_getD]
  have e : ((j : Int) - (-(t : Int))).toNat = j + t := by omega
  rw [e]
  rcases Nat.lt_or_ge (j + t) (A.length + A.length - 1) with h | h
  · rw [Nat.mod_eq_of_lt h]
    split_ifs with hc
    · rfl
    · exact (List.getD_eq_default _ _ (by omega)).symm
  · have hm : (j + t) % (A.length + A.length - 1) = j + t - (A.length + A.length - 1) := by
      rw [Nat.mod_eq_sub_mod h, Nat.mod_eq_of_lt (by omega)]
    rw [hm, if_neg (by omega)]
    exact (hloss _ (by omega) (Or.inl (by omega))).symm

/-- Shift towards later samples (`k = t > 0`): rotation index `n - t`. -/
theorem shift_signal_rotation_pos (A : List ℝ) (t : Nat) (ht0 : 0 < t) (ht : t ≤ A.length - 1)
    (hloss : ∀ i : Nat, i < A.length →
      ((i : Int) + (t : Int) < 0 ∨ (A.length : Int) ≤ (i : Int) + (t : Int)) →
      A.getD i 0 = 0)
    (j : Nat) (hj : j < A.length + A.length - 1) :
    (shift_signal A (t : Int)).getD j 0 =
      A.getD ((j + (A.length + A.length - 1 - t)) % (A.length + A.length - 1)) 0 := by
  rw [shift_signal_getD]
  rcases Nat.lt_or_ge j t with h | h
  · rw [Nat.mod_eq_of_lt (by omega), if_neg (by omega)]
    exact (List.getD_eq_default _ _ (by omega)).symm
  · have hm : (j + (A.length + A.length - 1 - t)) % (A.length + A.length - 1) = j - t := by
      rw [show j + (A.length + A.length - 1 - t) = (j - t) + (A.length + A.length - 1) by omega,
        Nat.add_mod_right, Nat.mod_eq_of_lt (by omega)]
    have e : ((j : Int) - (t : Int)).toNat = j - t := by omega
    rw [hm, e]
    split_ifs with hc
    · rfl
    · rcases Nat.lt_or_ge (j - t) A.length with h2 | h2
      · exact (hloss _ h2 (Or.inr (by omega))).symm
      · exact (List.getD_eq_default _ _ h2).symm


/-- With exact transforms, when the second signal is the first one rotated by
`p` modulo `n = 2 L - 1` and the first is not identically zero, the peak is at
index `p` and nowhere before. -/
theorem cross_correlation_exact_rotation (rc : ReturnCodes) (A B : List ℝ)
    (hB : B.length = A.length) (hA : ∃ i, A.getD i 0 ≠ 0)
    (hn : A.length + A.length - 1 < 2 ^ 31) (p : Nat) (hpN : p < A.length + A.length - 1)
    (hp : ∀ j, j < A.length + A.length - 1 →
      B.getD j 0 = A.getD ((j + p) % (A.length + A.length - 1)) 0) :
    cross_correlation rc exact_fftw Outcomes.all_ok A A.length B A.length =
      if p > A.length then (p : Int) - ((A.length + A.length - 1 : Nat) : Int) else (p : Int) := by
  have hL : 1 ≤ A.length := by
    obtain ⟨i, hi⟩ := hA
    by_contra hc
    exact hi (List.getD_eq_default _ _ (by omega))
  have h := cross_correlation_exact_of_peak rc A B hL (by omega) (by rw [hB]; exact hn) p
    (by rw [hB]; exact hpN)
  rw [hB] at h
  exact h (fun i _ => circular_correlation_le _ A B p hp i)
    (fun i hi => circular_correlation_lt A.length _ A B hL (by omega) (le_refl _) hA p hpN hp i
      (lt_trans hi hpN) (Nat.ne_of_lt hi))

/-- Claim C1, as the code has it. With exact transforms, for a signal `A` of
length `L` that is not identically zero, with `2 L - 1 < 2 ^ 31`, and a shift
`k` with `-(L - 1) ≤ k < L - 1` (or `k = 0`) that moves no non-zero sample out
of the window (`A[i] = 0` whenever `i + k` is outside `0 .. L - 1`):
`cross_correlation(A, L, B, L)` returns `-k` for `B` the shift of `A` by `k`
with zero fill. A delayed second signal gives a negative result. -/
theorem cross_correlation_shifted (rc : ReturnCodes) (A : List ℝ) (k : Int)
    (hn : A.length + A.length - 1 < 2 ^ 31)
    (hk1 : -((A.length : Int) - 1) ≤ k) (hk2 : k < (A.length : Int) - 1 ∨ k = 0)
    (hA : ∃ i, A.getD i 0 ≠ 0)
    (hloss : ∀ i : Nat, i < A.length →
      ((i : Int) + k < 0 ∨ (A.length : Int) ≤ (i : Int) + k) → A.getD i 0 = 0) :
    cross_correlation rc exact_fftw Outcomes.all_ok A A.length (shift_signal A k) A.length
      = -k := by
  have hL : 1 ≤ A.length := by
    obtain ⟨i, hi⟩ := hA
    by_contra hc
    exact hi (List.getD_eq_default _ _ (by omega))
  rcases le_or_lt k 0 with hk | hk
  · obtain ⟨t, rfl⟩ : ∃ t : Nat, k = -(t : Int) := ⟨(-k).toNat, by omega⟩
    rw [cross_correlation_exact_rotation rc A _ (shift_signal_length A _) hA hn t (by omega)
      (fun j hj => shift_signal_rotation_neg A t (by omega) hloss j hj)]
    rw [if_neg (by omega)]
    omega
  · obtain ⟨t, rfl⟩ : ∃ t : Nat, k = (t : Int) := ⟨k.toNat, by omega⟩
    rw [cross_correlation_exact_rotation rc A _ (shift_signal_length A _) hA hn
      (A.length + A.length - 1 - t) (by omega)
      (fun j hj => shift_signal_rotation_pos A t (by omega) (by omega) hloss j hj)]
    rw [if_pos (by omega)]
    omega


/-- Claim C1 as the code has it, on a concrete run: `A = [1, 2, 0]` shifted by 1;
the result is `-1`. -/
theorem cross_correlation_shifted_witness :
    cross_correlation sample_codes exact_fftw Outcomes.all_ok [1, 2, 0] 3
      (shift_signal [1, 2, 0] 1) 3 = -1 :=
  cross_correlation_shifted sample_codes [1, 2, 0] 1 (by norm_num) (by norm_num)
    (Or.inl (by norm_num)) ⟨0, by norm_num⟩
    (by
      intro i hi h
      simp only [List.length_cons, List.length_nil] at hi h
      interval_cases i
      · norm_num at h
      · norm_num at h
      · norm_num)

/-- The four shifted signals of the counterexample below. -/
theorem shift_examples :
    shift_signal ([1, 0, 0] : List ℝ) 1 = [0, 1, 0] ∧
    shift_signal ([0, 1, 10] : List ℝ) 1 = [0, 0, 1] ∧
    shift_signal ([0, 0, 0] : List ℝ) 1 = [0, 0, 0] ∧
    shift_signal ([1, 0] : List ℝ) 1 = [0, 1] := by
  refine ⟨?_, ?_, ?_, ?_⟩ <;> simp [shift_signal, List.range_succ]

/-- Claim C1, counterexample. With exact transforms and `k = 1`: for
`A = [1, 0, 0]` the result is `-1`, not `1`; for `A = [0, 1, 10]`, whose last
sample is shifted out, it is `0`; for the zero signal it is `0`; and for
`A = [1, 0]`, where `k = L - 1`, it is `2`. -/
theorem cross_correlation_shift_counterexample :
    cross_correlation sample_codes exact_fftw Outcomes.all_ok [1, 0, 0] 3
      (shift_signal [1, 0, 0] 1) 3 = -1 ∧
    cross_correlation sample_codes exact_fftw Outcomes.all_ok [0, 1, 10] 3
      (shift_signal [0, 1, 10] 1) 3 = 0 ∧
    cross_correlation sample_codes exact_fftw Outcomes.all_ok [0, 0, 0] 3
      (shift_signal [0, 0, 0] 1) 3 = 0 ∧
    cross_correlation sample_codes exact_fftw Outcomes.all_ok [1, 0] 2
      (shift_signal [1, 0] 1) 2 = 2 := by
  rw [shift_examples.1, shift_examples.2.1, shift_examples.2.2.1, shift_examples.2.2.2]
  refine ⟨?_, ?_, ?_, ?_⟩
  · have h := cross_correlation_exact_of_peak sample_codes [1, 0, 0] [0, 1, 0]
      (by simp) (by simp) (by simp) 4 (by simp)
      (by
        intro i hi
        simp only [List.length_cons, List.length_nil] at hi
        interval_cases i <;>
          simp [circular_correlation, Finset.sum_range_succ])
      (by
        intro i hi
        interval_cases i <;>
          simp [circular_correlation, Finset.sum_range_succ])
    simpa using h
  · have h := cross_correlation_exact_of_peak sample_codes [0, 1, 10] [0, 0, 1]
      (by simp) (by simp) (by simp) 0 (by simp)
      (by
        intro i hi
        simp only [List.length_cons, List.length_nil] at hi
        interval_cases i <;>
          simp [circular_correlation, Finset.sum_range_succ])
      (by
        intro i hi
        exact absurd hi (Nat.not_lt_zero i))
    simpa using h
  · have h := cross_correlation_exact_of_peak sample_codes [0, 0, 0] [0, 0, 0]
      (by simp) (by simp) (by simp) 0 (by simp)
      (by
        intro i hi
        simp only [List.length_cons, List.length_nil] at hi
        interval_cases i <;>
          simp [circular_correlation, Finset.sum_range_succ])
      (by
        intro i hi
        exact absurd hi (Nat.not_lt_zero i))
    simpa using h
  · have h := cross_correlation_exact_of_peak sample_codes [1, 0] [0, 1]
      (by simp) (by simp) (by simp) 2 (by simp)
      (by
        intro i hi
        simp only [List.length_cons, List.length_nil] at hi
        interval_cases i <;>
          simp [circular_correlation, Finset.sum_range_succ])
      (by
        intro i hi
        interval_cases i <;>
          simp [circular_correlation, Finset.sum_range_succ])
    simpa using h

/-- Claim C2. With the transforms taken as the exact discrete Fourier
transform, `cross_correlation(A, len, A, len)` returns `0` for every finite
signal `A` over the reals, in particular for every signal of length at least
1 that is not identically zero: the correlation sequence is largest at index
0 and the first-maximum search stays there. -/
theorem cross_correlation_self (rc : ReturnCodes) (A : List ℝ) :
    cross_correlation rc exact_fftw Outcomes.all_ok A A.length A A.length = 0 := by
  rw [cross_correlation_success]
  have hzero : ∀ (size1 : Nat) (n : Int), lag_of_index 0 size1 n = 0 := by
    intro size1 n
    unfold lag_of_index to_int
    simp
  by_cases h0 : to_size_t (to_int (to_size_t ((A.length : Int) + A.length - 1))) = 0
  · rw [h0]
    have : (find_max_index (final_data_of exact_fftw A A.length A A.length) 0).1 = 0 := by
      simp [find_max_index]
    rw [this]
    exact hzero _ _
  · have hidx : (find_max_index (final_data_of exact_fftw A A.length A A.length)
        (to_size_t (to_int (to_size_t ((A.length : Int) + A.length - 1))))).1 = 0 := by
      apply find_max_index_first_max _ _ 0 (Nat.pos_of_ne_zero h0)
      · intro i hi
        rw [final_data_of_exact A A.length A A.length _ rfl h0,
          getD_map_range _ _ _ _ hi, getD_map_range _ _ _ _ (Nat.pos_of_ne_zero h0)]
        apply mul_le_mul_of_nonneg_left _ (Nat.cast_nonneg _)
        apply circular_correlation_le
        intro j hj
        rw [Nat.add_zero, Nat.mod_eq_of_lt hj]
      · intro i hi
        exact absurd hi (Nat.not_lt_zero i)
    rw [hidx]
    exact hzero _ _

end ExactCorrelator

/-! ## The audio reader -/

section ReaderFlow

variable {K : Type}

theorem errors_positive_of_is_error (rc : ReturnCodes) (hpos : rc.errors_positive)
    (c : Int) (hc : rc.is_error c) : 0 < c := by
  obtain ⟨h1, h2, h3, h4, h5, h6, h7⟩ := hpos
  rcases hc with h | h | h | h | h | h | h <;> rw [h] <;> assumption

theorem handle_av_error_is_error (rc : ReturnCodes) (ret : Int) :
    rc.is_error (handle_av_error rc ret) := by
  unfold handle_av_error error ReturnCodes.is_error
  split_ifs <;> simp

theorem format_invalid_is_error (rc : ReturnCodes) : rc.is_error (error rc.ERROR_FORMAT_INVALID) := by
  unfold error ReturnCodes.is_error
  simp

theorem append_spec (rc : ReturnCodes) (st : BufState K) (fr : Frame K) :
    (∀ e st1, process_audio_frames_append rc st fr = (some e, st1) → rc.is_error e) ∧
    (∀ st1, process_audio_frames_append rc st fr = (none, st1) →
      st.stored_ok → st1.stored_ok) := by
  unfold process_audio_frames_append
  by_cases hfc : fr.frame_count > 0
  · simp only [hfc, if_true]
    split
    · rename_i hnone
      refine ⟨?_, ?_⟩
      · intro e st1 h
        rw [← (Prod.mk.inj h).1 |> Option.some.inj]
        exact format_invalid_is_error rc
      · intro st1 h
        exact absurd (Prod.mk.inj h).1 (by simp)
    · rename_i d hsome
      refine ⟨?_, ?_⟩
      · intro e st1 h
        exact absurd (Prod.mk.inj h).1 (by simp)
      · intro st1 h _
        rw [← (Prod.mk.inj h).2]
        intro _
        simp
  · simp only [hfc, if_false]
    refine ⟨?_, ?_⟩
    · intro e st1 h
      exact absurd (Prod.mk.inj h).1 (by simp)
    · intro st1 h hs
      rw [← (Prod.mk.inj h).2]
      exact hs

theorem receive_spec (rc : ReturnCodes) (frames : List (Frame K)) (st : BufState K) :
    (∀ e st1, process_audio_frames_receive rc frames st = (some e, st1) → rc.is_error e) ∧
    (∀ st1, process_audio_frames_receive rc frames st = (none, st1) →
      (∀ fr ∈ frames, 0 ≤ fr.samples_alloc_ret) ∧ (st.stored_ok → st1.stored_ok)) := by
  induction frames generalizing st with
  | nil =>
    unfold process_audio_frames_receive
    refine ⟨?_, ?_⟩
    · intro e st1 h
      exact absurd (Prod.mk.inj h).1 (by simp)
    · intro st1 h
      rw [← (Prod.mk.inj h).2]
      exact ⟨by simp, id⟩
  | cons fr rest ih =>
    unfold process_audio_frames_receive
    split_ifs with halloc
    · refine ⟨?_, by simp⟩
      intro e st1 h
      simp at h
      rw [← h.1]
      exact handle_av_error_is_error rc _
    · have ha := append_spec rc st fr
      rcases hres : process_audio_frames_append rc st fr with ⟨_ | e, st1⟩
      · simp only
        refine ⟨fun e st2 h => (ih st1).1 e st2 h, ?_⟩
        intro st2 h
        obtain ⟨h1, h2⟩ := (ih st1).2 st2 h
        refine ⟨?_, fun hs => h2 (ha.2 st1 hres hs)⟩
        intro f hf
        rcases List.mem_cons.mp hf with rfl | hf
        · exact not_lt.mp halloc
        · exact h1 f hf
      · simp only
        refine ⟨?_, by simp⟩
        intro e2 st2 h
        simp at h
        rw [← h.1]
        exact ha.1 e st1 hres

theorem loop_spec (rc : ReturnCodes) (stream_index : Int) (ps : List (Packet K))
    (st : BufState K) (sent : List (Packet K)) :
    ((process_audio_frames_loop rc stream_index ps st sent).1 = rc.SUCCESS ∨
      rc.is_error (process_audio_frames_loop rc stream_index ps st sent).1) ∧
    (¬ rc.is_error (process_audio_frames_loop rc stream_index ps st sent).1 →
      (∀ p ∈ ps, p.stream_index = stream_index →
        0 ≤ p.send_ret ∧ ∀ fr ∈ p.frames, 0 ≤ fr.samples_alloc_ret) ∧
      (st.stored_ok → (process_audio_frames_loop rc stream_index ps st sent).2.1.stored_ok)) := by
  induction ps generalizing st sent with
  | nil => simp [process_audio_frames_loop]
  | cons p rest ih =>
    unfold process_audio_frames_loop
    split_ifs with hidx hsend
    · obtain ⟨h1, h2⟩ := ih st sent
      refine ⟨h1, fun hne => ?_⟩
      obtain ⟨h3, h4⟩ := h2 hne
      refine ⟨?_, h4⟩
      intro q hq hqi
      rcases List.mem_cons.mp hq with rfl | hq
      · exact absurd hqi hidx
      · exact h3 q hq hqi
    · exact ⟨Or.inr (handle_av_error_is_error rc _),
        fun hne => absurd (handle_av_error_is_error rc _) hne⟩
    · have hr := receive_spec rc p.frames st
      rcases hres : process_audio_frames_receive rc p.frames st with ⟨_ | e, st1⟩
      · simp only
        obtain ⟨h1, h2⟩ := ih st1 (sent ++ [p])
        refine ⟨h1, fun hne => ?_⟩
        obtain ⟨h3, h4⟩ := h2 hne
        obtain ⟨h5, h6⟩ := hr.2 st1 hres
        refine ⟨?_, fun hs => h4 (h6 hs)⟩
        intro q hq hqi
        rcases List.mem_cons.mp hq with rfl | hq
        · exact ⟨not_lt.mp hsend, h5⟩
        · exact h3 q hq hqi
      · simp only
        exact ⟨Or.inr (hr.1 e st1 hres), fun hne => absurd (hr.1 e st1 hres) hne⟩

theorem process_audio_frames_spec (rc : ReturnCodes) (m : Media K) (a : AudioArray K)
    (stream_index : Int)
    (hne : ¬ rc.is_error (process_audio_frames rc m a stream_index).1) :
    m.frame_alloc_ok = true ∧
    (∀ p ∈ m.packets, p.stream_index = stream_index →
      0 ≤ p.send_ret ∧ ∀ fr ∈ p.frames, 0 ≤ fr.samples_alloc_ret) ∧
    (process_audio_frames rc m a stream_index).2.1.stored_ok := by
  unfold process_audio_frames at hne ⊢
  cases hfa : m.frame_alloc_ok with
  | false =>
    rw [hfa] at hne
    exact absurd (format_invalid_is_error rc) (by simpa using hne)
  | true =>
    rw [hfa] at hne
    simp only [Bool.not_true, Bool.false_eq_true, if_false] at hne ⊢
    obtain ⟨h3, h4⟩ := (loop_spec rc stream_index m.packets _ []).2 hne
    exact ⟨trivial, h3, h4 (by simp [BufState.stored_ok])⟩

/-- Claim C6, as the code has it. With all error codes positive: if
`read_audio_file` returns `0`, then the frame was allocated, every packet
whose stream index equals the selector passed to the loop was accepted by
`avcodec_send_packet`, `av_samples_alloc` succeeded for every frame received
for such a packet, and the buffer is not null when it holds samples. Said the
other way round: a rejected packet, a failed `av_samples_alloc`, a failed
frame allocation and a null buffer at an append all give a non-zero code. -/
theorem read_audio_file_zero_only_without_detected_failure (rc : ReturnCodes)
    (m : Media K) (audio_array : AudioArray K) (flag new_sample_rate : Int)
    (hpos : rc.errors_positive)
    (hret : (read_audio_file rc m audio_array flag new_sample_rate).ret = 0) :
    m.frame_alloc_ok = true ∧
    (∀ p ∈ m.packets, p.stream_index = flag →
      0 ≤ p.send_ret ∧ ∀ fr ∈ p.frames, 0 ≤ fr.samples_alloc_ret) ∧
    (0 < (read_audio_file rc m audio_array flag new_sample_rate).audio.size →
      (read_audio_file rc m audio_array flag new_sample_rate).audio.data ≠ none) := by
  have hfmt : 0 < rc.ERROR_FORMAT_INVALID := hpos.2.2.2.2.1
  unfold read_audio_file at hret ⊢
  simp only at hret ⊢
  by_cases hopen : open_audio_file rc m.opened > 0
  · simp only [hopen, if_true] at hret
    omega
  · simp only [hopen, if_false] at hret ⊢
    by_cases hchan : flag = 1 ∧ m.opened.channels < 2
    · simp only [hchan, and_self, if_true, error] at hret
      omega
    · simp only [hchan, if_false] at hret ⊢
      by_cases hswr : (!init_swr_context m) = true
      · simp only [hswr, if_true, error] at hret
        omega
      · simp only [hswr, if_false] at hret ⊢
        by_cases hproc : (process_audio_frames rc m
            { audio_array with sample_rate := new_sample_rate } flag).1 > 0
        · simp [hproc, error] at hret
          omega
        · simp only [hproc, if_false] at hret ⊢
          have hne : ¬ rc.is_error (process_audio_frames rc m
              { audio_array with sample_rate := new_sample_rate } flag).1 :=
            fun he => hproc (errors_positive_of_is_error rc hpos _ he)
          exact process_audio_frames_spec rc m _ flag hne

/-- Claim C6 as the code has it, on a concrete run: one packet, one frame of two
samples, end of input. -/
theorem read_audio_file_zero_only_without_detected_failure_witness :
    (sample_media 1 [sample_packet 0 [1, 2]] AVERROR_EOF).frame_alloc_ok = true ∧
    (∀ p ∈ (sample_media 1 [sample_packet 0 [1, 2]] AVERROR_EOF).packets,
      p.stream_index = 0 → 0 ≤ p.send_ret ∧ ∀ fr ∈ p.frames, 0 ≤ fr.samples_alloc_ret) ∧
    (0 < (read_audio_file sample_codes (sample_media 1 [sample_packet 0 [1, 2]] AVERROR_EOF)
        ⟨none, 0, 0⟩ 0 8000).audio.size →
      (read_audio_file sample_codes (sample_media 1 [sample_packet 0 [1, 2]] AVERROR_EOF)
        ⟨none, 0, 0⟩ 0 8000).audio.data ≠ none) :=
  read_audio_file_zero_only_without_detected_failure sample_codes
    (sample_media 1 [sample_packet 0 [1, 2]] AVERROR_EOF) ⟨none, 0, 0⟩ 0 8000
    (by unfold ReturnCodes.errors_positive; decide) (by decide)

/-- Claim C6, counterexample. On `sample_damaged` the decoder fails after the
first frame, a conversion returns a negative count and a packet read fails
with `AVERROR(EIO)`, which is not the end of input; `read_audio_file` returns
`0` with the two samples decoded before. -/
theorem read_audio_file_partial_success_counterexample :
    sample_damaged.read_end ≠ AVERROR_EOF ∧ sample_damaged.read_end < 0 ∧
    (read_audio_file sample_codes sample_damaged ⟨none, 0, 0⟩ 0 8000).ret = 0 ∧
    (read_audio_file sample_codes sample_damaged ⟨none, 0, 0⟩ 0 8000).audio =
      ⟨some [1, 2], 2, 8000⟩ := by
  decide

/-- A first frame of 2049 samples, whatever they are: one doubling, then 2049
samples stored in a buffer of capacity 2048. -/
theorem process_audio_frames_first_frame_2049 (l : List Int) (hl : l.length = 2049) :
    (process_audio_frames sample_codes
      (sample_media 1 [sample_packet 0 l] AVERROR_EOF) ⟨none, 0, 0⟩ 0).1 = 0 ∧
    (process_audio_frames sample_codes
      (sample_media 1 [sample_packet 0 l] AVERROR_EOF) ⟨none, 0, 0⟩ 0).2.1.size = 2049 ∧
    (process_audio_frames sample_codes
      (sample_media 1 [sample_packet 0 l] AVERROR_EOF) ⟨none, 0, 0⟩ 0).2.1.data_capacity = 2048 := by
  simp [process_audio_frames, process_audio_frames_loop, process_audio_frames_receive,
    process_audio_frames_append, sample_media, sample_packet, sample_frame, sample_codes,
    sample_open, hl, AVERROR_EAGAIN, AVERROR_EOF]

/-- Claim C7, failing input. The first converted frame has 2049 samples: the
capacity is doubled once, to 2048, and 2049 samples are then stored;
`process_audio_frames` returns `SUCCESS`. -/
theorem process_audio_frames_capacity_exceeded :
    (process_audio_frames sample_codes
      (sample_media 1 [sample_packet 0 (List.replicate 2049 1)] AVERROR_EOF) ⟨none, 0, 0⟩ 0).1 = 0 ∧
    (process_audio_frames sample_codes
      (sample_media 1 [sample_packet 0 (List.replicate 2049 1)] AVERROR_EOF) ⟨none, 0, 0⟩ 0).2.1.size = 2049 ∧
    (process_audio_frames sample_codes
      (sample_media 1 [sample_packet 0 (List.replicate 2049 1)] AVERROR_EOF) ⟨none, 0, 0⟩ 0).2.1.data_capacity
      = 2048 :=
  process_audio_frames_first_frame_2049 (List.replicate 2049 1) (List.length_replicate _ _)

/-- Claim C8, failing input. A stereo resource whose only stream is stream 0:
with selector 0 both packets are passed to the decoder, with selector 1 none
is. On `sample_video`, whose best audio stream is stream 1, selector 0 passes
the packet of stream 0 to the decoder and not the packet of stream 1. -/
theorem read_audio_file_packets_follow_selector :
    (sample_media 2 [sample_packet 0 [1, 2], sample_packet 0 [3]] AVERROR_EOF).opened.best_stream
      = 0 ∧
    (read_audio_file sample_codes
      (sample_media 2 [sample_packet 0 [1, 2], sample_packet 0 [3]] AVERROR_EOF)
      ⟨none, 0, 0⟩ 0 8000).sent = [sample_packet 0 [1, 2], sample_packet 0 [3]] ∧
    (read_audio_file sample_codes
      (sample_media 2 [sample_packet 0 [1, 2], sample_packet 0 [3]] AVERROR_EOF)
      ⟨none, 0, 0⟩ 1 8000).sent = [] ∧
    sample_video.opened.best_stream = 1 ∧
    (read_audio_file sample_codes sample_video ⟨none, 0, 0⟩ 0 8000).sent =
      [sample_packet 0 [7]] := by
  decide

end ReaderFlow

/-! ## The command line -/

/-- Claim C10, failing input. Two-file mode, the first file has no audio stream
and the second is fine: the first `read_audio_file` returns
`ERROR_FORMAT_INVALID`, the second returns `0`, and `main` exits with the
second code, `0`, without a report. -/
theorem main_exit_code_ignores_first_failure :
    (read_audio_file sample_codes (sample_files "silent.mkv") ⟨none, 0, 0⟩ 0 8000).ret =
      sample_codes.ERROR_FORMAT_INVALID ∧
    sample_codes.ERROR_FORMAT_INVALID ≠ 0 ∧
    (read_audio_file sample_codes (sample_files "b.wav") ⟨none, 0, 0⟩ 0 8000).ret = 0 ∧
    main sample_codes sample_fftw Outcomes.all_ok sample_files ["prog", "silent.mkv", "b.wav"] =
      ⟨0, none⟩ := by
  decide

end CrossCorrelation
